import Mathlib

/-!
Verification development for the bolivian-economy-tracker normalization /
derivation / alignment engine (the React dashboard's data pipeline).

Shallow embedding conventions:
* A raw JavaScript cell value is modelled by `Cell`: `null`, `undefined`,
  a string, or a (rational) number.  CSV cells after PapaParse
  `dynamicTyping` are strings or numbers; objects/booleans do not occur in
  this data and are not modelled.
* JavaScript numbers are modelled by `ℚ`; the special value `NaN` is
  modelled by `none` in `Option ℚ`.  So a value that is
  "number or NaN" is an `Option ℚ`, and a value that is
  "number, NaN, null or undefined" is an `Option (Option ℚ)` (`JsVal`)
  where the outer `none` collapses `null`/`undefined` (the code only ever
  distinguishes them from numbers via `x == null`, which treats both
  alike) and `some none` is `NaN`.
* Rows (parsed CSV records) are association lists from column name to
  `Cell`; keys are unique in real data, lookups take the first match.
* Instants are modelled as integer milliseconds since the Unix epoch in a
  single fixed (UTC) locale; the engine never mixes time zones.
* String parsers (`jsNumber`, the date/time parsers) model the fragment of
  the JavaScript built-ins exercised by this repository's data: decimal
  numeric literals (no hex/exponent/`Infinity`), and
  `YYYY-MM-DD`/`YYYY-MM-DD[T or space]HH:MM[:SS]` timestamps.
-/

/-- A raw JavaScript cell value as produced by PapaParse
(`dynamicTyping: true`): `null`, `undefined`, a string, or a number. -/
inductive Cell where
  | vnull : Cell
  | vundef : Cell
  | vstr : String → Cell
  | vnum : ℚ → Cell
deriving DecidableEq, Repr

/-- `none` is JavaScript `null`/`undefined`, `some none` is `NaN`,
`some (some q)` is the number `q`. -/
abbrev JsVal := Option (Option ℚ)

/-- JavaScript truthiness of a cell (`!x` in the source negates this). -/
def Cell.truthy : Cell → Bool
  | .vnull => false
  | .vundef => false
  | .vstr s => !(s == "")
  | .vnum q => !(q == 0)

/-- Value of a list of decimal digit characters. -/
def natOfDigits (l : List Char) : ℕ :=
  l.foldl (fun a c => 10 * a + (c.toNat - 48)) 0

/-- JavaScript whitespace test for the characters occurring in this data. -/
def isWS (c : Char) : Bool := c == ' ' || c == '\t' || c == '\n' || c == '\r'

/-- Model of `String.prototype.trim`. -/
def trimChars (l : List Char) : List Char :=
  (((l.dropWhile isWS).reverse).dropWhile isWS).reverse

/-- Unsigned decimal literal: `digits`, `digits.digits`, `digits.` or
`.digits` (the fragment of JS numeric literals present in this data). -/
def parseUnsignedDec (l : List Char) : Option ℚ :=
  let intPart := l.takeWhile Char.isDigit
  let rest := l.dropWhile Char.isDigit
  match rest with
  | [] => if intPart = [] then none else some (natOfDigits intPart : ℚ)
  | '.' :: frac =>
      if frac.all Char.isDigit ∧ (intPart ≠ [] ∨ frac ≠ []) then
        some ((natOfDigits intPart : ℚ) + (natOfDigits frac : ℚ) / (10 ^ frac.length))
      else none
  | _ => none

/-- Model of JavaScript `Number(s)` on strings: trims whitespace, the
empty/whitespace-only string is `0`, otherwise an optionally signed
decimal literal; anything else is `NaN` (`none`). -/
def jsNumber (s : String) : Option ℚ :=
  match trimChars s.toList with
  | [] => some 0
  | '-' :: rest => (parseUnsignedDec rest).map (fun q => -q)
  | '+' :: rest => parseUnsignedDec rest
  | l => parseUnsignedDec l

/-- A parsed CSV row: association list from column name to cell. -/
abbrev Row := List (String × Cell)

/-- `k in row` — the key-presence test of the column resolver. -/
def rowHas (r : Row) (k : String) : Bool := r.any (fun p => p.1 == k)

/-- `row[k]` — property access; an absent key reads as `undefined`. -/
def rowGet (r : Row) (k : String) : Cell :=
  match r.find? (fun p => p.1 == k) with
  | some p => p.2
  | none => Cell.vundef

/-- `pick(row, candidates)` from Home.jsx / Macro.jsx: the value of the
first candidate name present as a key, else `undefined`; a null/undefined
row yields `undefined`. -/
def pick (row : Option Row) (candidates : List String) : Cell :=
  match row with
  | none => Cell.vundef
  | some r =>
    match candidates.find? (fun k => rowHas r k) with
    | some k => rowGet r k
    | none => Cell.vundef

/-- `asNum(x)` from Home.jsx / Currency.jsx / Macro.jsx:
`x === null || x === undefined || x === '' ? null : Number(x)`.
Result: `none` = null, `some none` = NaN, `some (some q)` = number. -/
def asNum (x : Cell) : Option (Option ℚ) :=
  match x with
  | Cell.vnull => none
  | Cell.vundef => none
  | Cell.vstr s => if s = "" then none else some (jsNumber s)
  | Cell.vnum q => some (some q)

/-- `r?.k` — optional-chained property access on a possibly null row. -/
def getField (r : Option Row) (k : String) : Cell :=
  match r with
  | none => Cell.vundef
  | some row => rowGet row k

/-- JavaScript `+` on number-or-NaN values. -/
def jsAdd : Option ℚ → Option ℚ → Option ℚ
  | some x, some y => some (x + y)
  | _, _ => none

/-- JavaScript `-` on number-or-NaN values. -/
def jsSub : Option ℚ → Option ℚ → Option ℚ
  | some x, some y => some (x - y)
  | _, _ => none

/-- `midFromBA(r)` from Home.jsx: bid/ask through `asNum`, `null` if either
is `== null`, else `(bid + ask) / 2` (NaN propagates through arithmetic). -/
def midFromBA (r : Option Row) : JsVal :=
  match asNum (getField r "best_bid"), asNum (getField r "best_ask") with
  | some b, some a => some ((jsAdd b a).map (fun q => q / 2))
  | _, _ => none

/-- The "no value" cells of the spec: absent, null, or empty string. -/
def cellNoValue (c : Cell) : Prop :=
  c = Cell.vnull ∨ c = Cell.vundef ∨ c = Cell.vstr ""

/-! ## Instants and calendar dates -/

/-- A JavaScript `Date`'s broken-down components (month 0-based, as in
`getMonth`/the `Date` constructor); a single fixed (UTC) locale. -/
structure JSDate where
  year : ℤ
  month : ℤ
  day : ℤ
  hour : ℤ
  minute : ℤ
  second : ℤ
deriving DecidableEq, Repr

/-- Days since 1970-01-01 of the civil date `y-m-d` (`m` 1-based),
proleptic Gregorian calendar. -/
def daysFromCivil (y m d : ℤ) : ℤ :=
  let y2 := if m ≤ 2 then y - 1 else y
  let era := y2.fdiv 400
  let yoe := y2 - era * 400
  let mp := (m - 3).emod 12
  let doy := (153 * mp + 2) / 5 + d - 1
  let doe := yoe * 365 + yoe / 4 - yoe / 100 + doy
  era * 146097 + doe - 719468

/-- Epoch milliseconds of a broken-down date (`getTime`). -/
def toMillis (dt : JSDate) : ℤ :=
  daysFromCivil dt.year (dt.month + 1) dt.day * 86400000
    + dt.hour * 3600000 + dt.minute * 60000 + dt.second * 1000

def isLeap (y : ℤ) : Bool := (y % 4 == 0 && !(y % 100 == 0)) || y % 400 == 0

/-- Length of month `m` (1-based) in year `y`. -/
def daysInMonth (y m : ℤ) : ℤ :=
  if m = 2 then (if isLeap y then 29 else 28)
  else if m = 4 ∨ m = 6 ∨ m = 9 ∨ m = 11 then 30 else 31

/-- A `Date` is valid iff its time value is within ±8.64e15 ms of the
epoch; an out-of-range construction is `Invalid Date` (`NaN` time). -/
def jsTimeValid (m : ℤ) : Option ℤ :=
  if m.natAbs ≤ 8640000000000000 then some m else none

/-- Component validity check performed by ISO-format `Date` parsing
(month 1-based on input; stored 0-based). -/
def mkValidDate (y mo d h mi s : ℤ) : Option JSDate :=
  if 1 ≤ mo ∧ mo ≤ 12 ∧ 1 ≤ d ∧ d ≤ daysInMonth y mo
      ∧ 0 ≤ h ∧ h ≤ 23 ∧ 0 ≤ mi ∧ mi ≤ 59 ∧ 0 ≤ s ∧ s ≤ 59
  then some ⟨y, mo - 1, d, h, mi, s⟩ else none

def d2 (a b : Char) : ℤ := (natOfDigits [a, b] : ℤ)

def d4 (a b c d : Char) : ℤ := (natOfDigits [a, b, c, d] : ℤ)

/-- Model of `new Date(string)` for the timestamp shapes in this data:
`YYYY-MM-DD`, and `YYYY-MM-DD` + (`T` or space) + `HH:MM` or `HH:MM:SS`
(V8 also accepts the space separator, parsing it like the `T` form). -/
def parseDateTimeChars : List Char → Option JSDate
  | [y1, y2, y3, y4, '-', a, b, '-', c, d] =>
      if [y1, y2, y3, y4, a, b, c, d].all Char.isDigit then
        mkValidDate (d4 y1 y2 y3 y4) (d2 a b) (d2 c d) 0 0 0
      else none
  | [y1, y2, y3, y4, '-', a, b, '-', c, d, sep, h1, h2, ':', m1, m2] =>
      if (sep = 'T' ∨ sep = ' ')
          ∧ [y1, y2, y3, y4, a, b, c, d, h1, h2, m1, m2].all Char.isDigit then
        mkValidDate (d4 y1 y2 y3 y4) (d2 a b) (d2 c d) (d2 h1 h2) (d2 m1 m2) 0
      else none
  | [y1, y2, y3, y4, '-', a, b, '-', c, d, sep, h1, h2, ':', m1, m2, ':', s1, s2] =>
      if (sep = 'T' ∨ sep = ' ')
          ∧ [y1, y2, y3, y4, a, b, c, d, h1, h2, m1, m2, s1, s2].all Char.isDigit then
        mkValidDate (d4 y1 y2 y3 y4) (d2 a b) (d2 c d) (d2 h1 h2) (d2 m1 m2) (d2 s1 s2)
      else none
  | _ => none

/-- `parseIsoDate(s)` from Macro.jsx: falsy → null, else `new Date(s)`,
null when invalid.  (Calendar dates of 4-digit years are always within
the valid `Date` range, so no extra range check is needed here.) -/
def parseIsoDate (s : String) : Option JSDate :=
  if s = "" then none else parseDateTimeChars s.toList

/-- The fallback regex of `parseTs` in Currency.jsx:
`^(\d{4})-(\d{2})-(\d{2})[ T](\d{2}):(\d{2})(?::(\d{2}))?` — anchored only
at the start, missing seconds default to 0. -/
def tsRegexMatch : List Char → Option (ℤ × ℤ × ℤ × ℤ × ℤ × ℤ)
  | y1 :: y2 :: y3 :: y4 :: '-' :: a :: b :: '-' :: c :: d
      :: sep :: h1 :: h2 :: ':' :: m1 :: m2 :: rest =>
      if (sep = ' ' ∨ sep = 'T')
          ∧ [y1, y2, y3, y4, a, b, c, d, h1, h2, m1, m2].all Char.isDigit then
        let secs : ℤ :=
          match rest with
          | ':' :: s1 :: s2 :: _ =>
              if s1.isDigit ∧ s2.isDigit then d2 s1 s2 else 0
          | _ => 0
        some (d4 y1 y2 y3 y4, d2 a b, d2 c d, d2 h1 h2, d2 m1 m2, secs)
      else none
  | _ => none

/-- `new Date(y, mo, d, h, mi, s)` (`mo` 0-based): out-of-range components
roll over arithmetically. -/
def jsDateCtor (y mo d h mi s : ℤ) : ℤ :=
  let y2 := y + mo.fdiv 12
  let m2 := mo.emod 12 + 1
  (daysFromCivil y2 m2 1 + (d - 1)) * 86400000
    + h * 3600000 + mi * 60000 + s * 1000

/-- `parseTs(ts)` from Currency.jsx: falsy → null; `new Date(ts)` first
(for numbers, epoch milliseconds truncated toward zero; for strings, the
ISO-like shapes of `parseDateTimeChars`); if that is invalid, the explicit
regex fallback builds a rolled-over local date.  Result in epoch ms. -/
def parseTs (ts : Cell) : Option ℤ :=
  if ts.truthy = false then none
  else
    match ts with
    | Cell.vstr s =>
        (match parseDateTimeChars s.toList with
        | some dt => jsTimeValid (toMillis dt)
        | none =>
            match tsRegexMatch s.toList with
            | some (y, mo, dd, h, mi, sec) =>
                jsTimeValid (jsDateCtor y (mo - 1) dd h mi sec)
            | none => none)
    | Cell.vnum q => jsTimeValid (q.num / (q.den : ℤ))
    | _ => none

/-- Epoch branch of `parseTsToDate`: an all-digit timestamp of value `n`
is epoch seconds unless `n > 1e12`, in which case it is epoch ms. -/
def digitEpoch (n : ℕ) : Option ℤ :=
  jsTimeValid (if (n : ℤ) > 1000000000000 then (n : ℤ) else (n : ℤ) * 1000)

/-- `s.replace(' ', 'T')` — replaces the first space only. -/
def replaceFirstSpace : List Char → List Char
  | [] => []
  | ' ' :: rest => 'T' :: rest
  | c :: rest => c :: replaceFirstSpace rest

/-- `parseTsToDate(ts)` from Home.jsx: falsy → null; `String(ts).trim()`;
all-digits → epoch seconds/ms per the 1e12 threshold; else the 19-char
`YYYY-MM-DD HH:MM:SS` form gets its space replaced by `T`; then
`new Date(iso)`.  (Numeric cells: a positive integer renders to the same
all-digit string; other numbers render outside the modelled date grammar
and fail to parse.) -/
def parseTsToDate (ts : Cell) : Option ℤ :=
  if ts.truthy = false then none
  else
    match ts with
    | Cell.vstr s =>
        let t := trimChars s.toList
        if t ≠ [] ∧ t.all Char.isDigit then digitEpoch (natOfDigits t)
        else
          let iso := if t.length = 19 ∧ ¬ t.contains 'T' then replaceFirstSpace t else t
          (match parseDateTimeChars iso with
          | some dt => jsTimeValid (toMillis dt)
          | none => none)
    | Cell.vnum q =>
        if q.den = 1 ∧ 0 < q.num then digitEpoch q.num.toNat else none
    | _ => none

/-! ## Time-window slicers -/

/-- The anchor scan of `applyRange` (Macro.jsx lines 56–61): walk back
over falsy labels, take the last truthy one. -/
def lastTruthyLabel (labels : List String) : Option String :=
  labels.reverse.find? (fun s => !(s == ""))

/-- The range branch of `applyRange`: start date for `YTD`/`5Y`/`10Y`,
none for any other token (which leaves the series unchanged). -/
def rangeStartDate (lastDate : JSDate) (range : String) : Option JSDate :=
  if range = "YTD" then some ⟨lastDate.year, 0, 1, 0, 0, 0⟩
  else if range = "5Y" then some ⟨lastDate.year - 5, lastDate.month, 1, 0, 0, 0⟩
  else if range = "10Y" then some ⟨lastDate.year - 10, lastDate.month, 1, 0, 0, 0⟩
  else none

/-- The start boundary `applyRange` actually filters with: anchor label →
parsed anchor date → range start date; none on any failure (no-op). -/
def applyRangeBoundary (labels : List String) (range : String) : Option JSDate :=
  match lastTruthyLabel labels with
  | none => none
  | some lbl =>
    match parseIsoDate lbl with
    | none => none
    | some lastDate => rangeStartDate lastDate range

/-- Keep test of `applyRange`'s loop: parseable date not before the start
boundary (`if (!d) continue; if (d < startDate) continue`). -/
def keepLabel (startDate : JSDate) (s : String) : Bool :=
  match parseIsoDate s with
  | none => false
  | some d => decide (toMillis startDate ≤ toMillis d)

/-- `applyRange(labels, datasets, range)` from Macro.jsx.  Datasets are
modelled by their `data` arrays; `ds.data[i]` out of range reads as
`undefined`, pushed like any other value (`getD i none`). -/
def applyRange (labels : List String) (datasets : List (List JsVal)) (range : String) :
    List String × List (List JsVal) :=
  if range = "ALL" then (labels, datasets)
  else
    match applyRangeBoundary labels range with
    | none => (labels, datasets)
    | some startDate =>
      let idx := (List.range labels.length).filter (fun i => keepLabel startDate (labels.getD i ""))
      (idx.map (fun i => labels.getD i ""),
       datasets.map (fun ds => idx.map (fun i => ds.getD i none)))

/-- `r.ts` of a currency row. -/
def tsOf (r : Row) : Cell := rowGet r "ts"

/-- `cutoffHours` of Currency.jsx's `filtered`: 24, or 168 for `1W`,
or 720 for `1M` (any other token falls back to 24). -/
def cutoffHoursFor (range : String) : ℤ :=
  if range = "1W" then 24 * 7 else if range = "1M" then 24 * 30 else 24

/-- The cutoff Currency.jsx's `filtered` slices with: last row's parsed
`ts` minus `cutoffHours` hours; none when there is no such anchor. -/
def currencyCutoff (rows : List Row) (range : String) : Option ℤ :=
  match rows.getLast? with
  | none => none
  | some lastRow =>
      (parseTs (tsOf lastRow)).map (fun t => t - cutoffHoursFor range * 3600 * 1000)

/-- `filtered` from Currency.jsx: empty input or unparseable anchor →
`[]`; else the rows whose `ts` parses to an instant `≥ cutoff`. -/
def filteredRows (rows : List Row) (range : String) : List Row :=
  match currencyCutoff rows range with
  | none => []
  | some cutoff =>
      rows.filter (fun r =>
        match parseTs (tsOf r) with
        | none => false
        | some t => decide (cutoff ≤ t))

/-! ## Cross-series alignment and trade metrics (Macro.jsx) -/

/-- `r.date` of a macro row. -/
def dateOf (r : Row) : Cell := rowGet r "date"

/-- `expDates = exp.map(r => r.date)`. -/
def expDates (exp : List Row) : List Cell := exp.map dateOf

/-- `tradeDates = expDates` — the primary (exports) label axis. -/
def tradeDates (exp : List Row) : List Cell := expDates exp

/-- `impByDate.get(d)`: the lookup map is built by `m.set(row.date, row)`
over the import rows with truthy `date`, so a get returns the **last**
such row whose date equals `d` exactly. -/
def impByDate (imp : List Row) (d : Cell) : Option Row :=
  imp.reverse.find? (fun r => (dateOf r).truthy && dateOf r == d)

/-- `a ?? b` — JavaScript nullish coalescing on cells. -/
def jsCoalesce (a b : Cell) : Cell :=
  match a with
  | Cell.vnull => b
  | Cell.vundef => b
  | _ => a

/-- The imports-FOB-adjusted reading of one import row:
`asNum(r['TotalImportaciones_FOBAjustado_MillonesUSD'] ?? r['TotalImportaciones_FOB'])`. -/
def impFOBAdjOf (r : Row) : JsVal :=
  asNum (jsCoalesce (rowGet r "TotalImportaciones_FOBAjustado_MillonesUSD")
    (rowGet r "TotalImportaciones_FOB"))

/-- `importsForTrade` from Macro.jsx: for each primary (exports) label,
the matching import row's adjusted FOB, or null when no row matches. -/
def importsForTrade (exp imp : List Row) : List JsVal :=
  (tradeDates exp).map (fun d =>
    match impByDate imp d with
    | none => none
    | some r => impFOBAdjOf r)

/-- `expFOB = exp.map(r => asNum(r['FOB']))`. -/
def expFOB (exp : List Row) : List JsVal := exp.map (fun r => asNum (rowGet r "FOB"))

/-- `tradeBalance` from Macro.jsx: per position, null if either side is
`== null`, else `exportsFOB − importsFOBAdjusted`. -/
def tradeBalance (exp imp : List Row) : List JsVal :=
  (List.range (tradeDates exp).length).map (fun idx =>
    match (expFOB exp).getD idx none, (importsForTrade exp imp).getD idx none with
    | some x, some m => some (jsSub x m)
    | _, _ => none)

/-! ## Extremum/latest annotator (Home.jsx) -/

/-- `computedMids = rows.map(midFromBA)`. -/
def computedMids (rows : List Row) : List JsVal := rows.map (fun r => midFromBA (some r))

/-- `arr.slice(-48)` — the trailing window of at most 48 entries. -/
def sparkSliceOf (mids : List JsVal) : List JsVal := mids.drop (mids.length - 48)

/-- `validPairs`: index the window, keep the non-null entries (`v != null`;
note a NaN entry would pass this test). -/
def validPairs (w : List JsVal) : List (ℕ × JsVal) :=
  w.enum.filter (fun p => p.2 != none)

/-- JavaScript `<` on our values: true only for two numbers comparing
less; false whenever either side is NaN (or non-numeric). -/
def jsLtV : JsVal → JsVal → Bool
  | some (some x), some (some y) => decide (x < y)
  | _, _ => false

/-- `minPair`: `validPairs.reduce((a, b) => (b.v < a.v ? b : a))`, null on
an empty list — ties keep the earlier pair. -/
def minPair (w : List JsVal) : Option (ℕ × JsVal) :=
  match validPairs w with
  | [] => none
  | h :: t => some (t.foldl (fun a b => if jsLtV b.2 a.2 then b else a) h)

/-- `maxPair`: `validPairs.reduce((a, b) => (b.v > a.v ? b : a))`, null on
an empty list — ties keep the earlier pair. -/
def maxPair (w : List JsVal) : Option (ℕ × JsVal) :=
  match validPairs w with
  | [] => none
  | h :: t => some (t.foldl (fun a b => if jsLtV a.2 b.2 then b else a) h)

/-- `lastMid = computedMids.at(-1)`: the value at the final position —
`undefined` (collapsed with null) on an empty list.  The overlay draws a
"last" annotation only when this is `!= null`. -/
def lastMidOf (mids : List JsVal) : JsVal := (mids.getLast?).getD none

/-! ## Definitions written from the spec's words (for comparison) -/

/-- Modelled from the spec: §4.6's "the last defined value" of a window —
the last entry that is not "no value".  Written from the spec's words, to
be compared with `lastMidOf` (the code's behavior). -/
def specLastDefined (w : List JsVal) : JsVal :=
  ((w.filter (fun v => v != none)).getLast?).getD none

/-- Modelled from the spec: §4.5's anchor, "the last non-absent label's
date in the series itself". -/
def specAnchor (labels : List String) : Option JSDate :=
  (labels.reverse.find? (fun s => !(s == ""))).bind parseIsoDate

/-- Modelled from the spec: §4.5's boundary rules — `YTD` → January 1 of
the anchor year; `5Y`/`10Y` → same month, N years earlier. -/
def specBoundaryFromAnchor (d : JSDate) (range : String) : Option JSDate :=
  if range = "YTD" then some ⟨d.year, 0, 1, 0, 0, 0⟩
  else if range = "5Y" then some ⟨d.year - 5, d.month, 1, 0, 0, 0⟩
  else if range = "10Y" then some ⟨d.year - 10, d.month, 1, 0, 0, 0⟩
  else none

/-- Modelled from the spec: §4.5's `1D`/`1W`/`1M` window lengths in hours
(anchor minus 24h / 7×24h / 30×24h). -/
def specWindowHours (range : String) : ℤ :=
  if range = "1W" then 7 * 24 else if range = "1M" then 30 * 24 else 24

/-- Modelled from the spec: the currency slicer's anchor, the last row
whose `ts` label is non-absent, parsed to an instant. -/
def specCurrencyAnchor (rows : List Row) : Option ℤ :=
  (rows.reverse.find? (fun r => (tsOf r).truthy)).bind (fun r => parseTs (tsOf r))

/-! ## Example data -/

/-- Exports table of the alignment example: labels `d1, d2, d3`. -/
def expEx : List Row :=
  [[("date", Cell.vstr "d1"), ("FOB", Cell.vnum 10)],
   [("date", Cell.vstr "d2"), ("FOB", Cell.vnum 20)],
   [("date", Cell.vstr "d3"), ("FOB", Cell.vnum 30)]]

/-- Imports table of the alignment example: labels `d1, d3` only. -/
def impEx : List Row :=
  [[("date", Cell.vstr "d1"), ("TotalImportaciones_FOBAjustado_MillonesUSD", Cell.vnum 4)],
   [("date", Cell.vstr "d3"), ("TotalImportaciones_FOB", Cell.vnum 7)]]

/-- The comparison step of `minPair`'s reduce. -/
def jsMinStep (a b : ℕ × JsVal) : ℕ × JsVal := if jsLtV b.2 a.2 then b else a

/-- The comparison step of `maxPair`'s reduce. -/
def jsMaxStep (a b : ℕ × JsVal) : ℕ × JsVal := if jsLtV a.2 b.2 then b else a

/-! ## Helper lemmas -/

lemma mem_of_getLast?_eq_some {α : Type _} {l : List α} {a : α}
    (h : l.getLast? = some a) : a ∈ l := by
  induction l with
  | nil => simp at h
  | cons b t ih =>
    cases t with
    | nil => simp_all
    | cons c u =>
      rw [List.getLast?_cons_cons] at h
      exact List.mem_cons_of_mem _ (ih h)

lemma isWS_eq_false_of_isDigit {c : Char} (h : c.isDigit = true) : isWS c = false := by
  by_cases e1 : c = ' '
  · subst e1; exact absurd h (by decide)
  by_cases e2 : c = '\t'
  · subst e2; exact absurd h (by decide)
  by_cases e3 : c = '\n'
  · subst e3; exact absurd h (by decide)
  by_cases e4 : c = '\r'
  · subst e4; exact absurd h (by decide)
  simp [isWS, e1, e2, e3, e4]

lemma dropWhile_isWS_of_digits {l : List Char} (h : l.all Char.isDigit = true) :
    l.dropWhile isWS = l := by
  cases l with
  | nil => rfl
  | cons c t =>
    have hc : c.isDigit = true := by
      simp only [List.all_cons, Bool.and_eq_true] at h
      exact h.1
    simp [List.dropWhile_cons, isWS_eq_false_of_isDigit hc]

lemma trimChars_of_digits {l : List Char} (h : l.all Char.isDigit = true) :
    trimChars l = l := by
  unfold trimChars
  rw [dropWhile_isWS_of_digits h, dropWhile_isWS_of_digits (by simpa using h),
    List.reverse_reverse]

/-! ## C1 -/

/-- C1: for every input row, the derived midpoint follows the
absorbing-null rule — when both `best_bid` and `best_ask` are present
numeric values the result is `(bestBid + bestAsk) / 2`, and when either
is "no value" (absent, null, or empty) the result is "no value". -/
theorem C1_mid_null_absorption (r : Option Row) (b a : ℚ) :
    (getField r "best_bid" = Cell.vnum b → getField r "best_ask" = Cell.vnum a →
      midFromBA r = some (some ((b + a) / 2)))
    ∧ ((cellNoValue (getField r "best_bid") ∨ cellNoValue (getField r "best_ask")) →
      midFromBA r = none) := by
  constructor
  · intro hb ha
    simp [midFromBA, hb, ha, asNum, jsAdd]
  · intro h
    have key : asNum (getField r "best_bid") = none ∨ asNum (getField r "best_ask") = none := by
      rcases h with h | h
      · exact Or.inl (by rcases h with h | h | h <;> simp [asNum, h])
      · exact Or.inr (by rcases h with h | h | h <;> simp [asNum, h])
    unfold midFromBA
    rcases key with k | k
    · rw [k]
    · rw [k]
      cases asNum (getField r "best_bid") <;> rfl

theorem C1_mid_null_absorption_witness :
    midFromBA (some [("best_bid", Cell.vnum (69 / 10)), ("best_ask", Cell.vnum 7)])
      = some (some ((69 / 10 + 7) / 2))
    ∧ midFromBA (some [("best_bid", Cell.vnull), ("best_ask", Cell.vnum 7)]) = none :=
  ⟨(C1_mid_null_absorption (some [("best_bid", Cell.vnum (69 / 10)),
      ("best_ask", Cell.vnum 7)]) (69 / 10) 7).1 (by with_unfolding_all rfl)
      (by with_unfolding_all rfl),
   (C1_mid_null_absorption (some [("best_bid", Cell.vnull),
      ("best_ask", Cell.vnum 7)]) 0 0).2 (Or.inl (Or.inl (by decide)))⟩

/-! ## C5 -/

/-- C5 counterexample: the claim says an unparseable cell yields "no
value" and never NaN, but `asNum('abc') = Number('abc') = NaN`, which is
not the code's null marker. -/
theorem C5_coercion_counterexample :
    asNum (Cell.vstr "abc") = some none ∧ asNum (Cell.vstr "abc") ≠ none := by
  decide

/-- C5 (amended): absence, null, and the empty string coerce to "no
value"; a non-empty cell that fails numeric parsing yields NaN (not the
null marker, and in particular not zero and not a number); a parseable
cell yields the exact parsed number, sign and precision preserved. -/
theorem C5_coercion_amended (c : Cell) (s : String) (q : ℚ) :
    (asNum c = none ↔ cellNoValue c)
    ∧ (s ≠ "" → jsNumber s = none → asNum (Cell.vstr s) = some none)
    ∧ (s ≠ "" → jsNumber s = some q → asNum (Cell.vstr s) = some (some q))
    ∧ asNum (Cell.vnum q) = some (some q) := by
  refine ⟨?_, ?_, ?_, rfl⟩
  · cases c with
    | vstr t => by_cases ht : t = "" <;> simp [asNum, cellNoValue, ht]
    | _ => simp [asNum, cellNoValue]
  · intro hs hn; simp [asNum, hs, hn]
  · intro hs hn; simp [asNum, hs, hn]

theorem C5_coercion_amended_witness :
    asNum (Cell.vstr "xyz") = some none
    ∧ asNum (Cell.vstr "-12.5") = some (some (-(25 / 2)))
    ∧ asNum Cell.vnull = none :=
  ⟨(C5_coercion_amended Cell.vnull "xyz" 0).2.1 (by decide) (by decide),
   (C5_coercion_amended Cell.vnull "-12.5" (-(25 / 2))).2.2.1 (by decide)
     (by with_unfolding_all rfl),
   (C5_coercion_amended Cell.vnull "" 0).1.mpr (Or.inl rfl)⟩

/-! ## C6 -/

/-- C6: the column resolver returns the value stored under the first
candidate name present as a key in the row — regardless of that value —
and returns absent (`undefined`) when no candidate is a key; a missing
row also yields absent rather than an error. -/
theorem C6_pick_first_present (r : Row) (cands pre post : List String) (k : String) :
    pick none cands = Cell.vundef
    ∧ (cands = pre ++ k :: post → (∀ k2 ∈ pre, rowHas r k2 = false) → rowHas r k = true →
        pick (some r) cands = rowGet r k)
    ∧ ((∀ k2 ∈ cands, rowHas r k2 = false) → pick (some r) cands = Cell.vundef) := by
  refine ⟨rfl, ?_, ?_⟩
  · rintro rfl hpre hk
    have h1 : pre.find? (fun k2 => rowHas r k2) = none :=
      List.find?_eq_none.mpr (by intro x hx; simp [hpre x hx])
    simp [pick, List.find?_append, h1, List.find?_cons, hk]
  · intro h
    have h1 : cands.find? (fun k2 => rowHas r k2) = none :=
      List.find?_eq_none.mpr (by intro x hx; simp [h x hx])
    simp [pick, h1]

theorem C6_pick_first_present_witness :
    pick (some [("RIN", Cell.vnum 5),
        ("Reservas Internacionales Netas RIN = RIB - OECP", Cell.vnum 9)])
      ["Reservas Internacionales Netas RIN = RIB - OECP", "RIN"] = Cell.vnum 9 :=
  ((C6_pick_first_present [("RIN", Cell.vnum 5),
      ("Reservas Internacionales Netas RIN = RIB - OECP", Cell.vnum 9)]
    ["Reservas Internacionales Netas RIN = RIB - OECP", "RIN"] [] ["RIN"]
    "Reservas Internacionales Netas RIN = RIB - OECP").2.1 rfl (by simp)
      (by decide)).trans (by decide)

/-! ## C7 -/

/-- C7 counterexample: at the exact threshold value `1e12` (an all-digit
timestamp) the claim predicts epoch-milliseconds (instant `10^12`), but
the code's strict `n > 1e12` test takes the epoch-seconds branch and
produces `10^15`. -/
theorem C7_epoch_threshold_counterexample :
    parseTsToDate (Cell.vstr "1000000000000") = some (10 ^ 15)
    ∧ parseTsToDate (Cell.vstr "1000000000000") ≠ some (10 ^ 12) := by
  decide

/-- C7 (amended): an all-digit timestamp of value `n` parses as epoch
seconds when `n ≤ 1e12` and as epoch milliseconds when `n > 1e12` (the
boundary value itself is taken as seconds); the 10-digit and 13-digit
examples denote the same instant. -/
theorem C7_epoch_threshold_amended (s : String) (n : ℕ)
    (h1 : s.toList ≠ []) (h2 : s.toList.all Char.isDigit = true)
    (h3 : natOfDigits s.toList = n) :
    (n ≤ 10 ^ 12 → parseTsToDate (Cell.vstr s) = jsTimeValid ((n : ℤ) * 1000))
    ∧ (10 ^ 12 < n → parseTsToDate (Cell.vstr s) = jsTimeValid (n : ℤ))
    ∧ parseTsToDate (Cell.vstr "1700000000")
        = parseTsToDate (Cell.vstr "1700000000000") := by
  have hs : s ≠ "" := by
    intro e
    exact h1 (by simp [e])
  have htr : trimChars s.toList = s.toList := trimChars_of_digits h2
  have hred : parseTsToDate (Cell.vstr s) = digitEpoch (natOfDigits s.toList) := by
    simp only [parseTsToDate, Cell.truthy, htr]
    rw [if_neg (by simp [hs]), if_pos ⟨h1, h2⟩]
  rw [hred, h3]
  refine ⟨?_, ?_, by decide⟩
  · intro hle
    have hnot : ¬ ((n : ℤ) > 1000000000000) := by omega
    simp [digitEpoch, hnot]
  · intro hgt
    have hyes : ((n : ℤ) > 1000000000000) := by omega
    simp [digitEpoch, hyes]

theorem C7_epoch_threshold_amended_witness :
    parseTsToDate (Cell.vstr "1700000000") = some 1700000000000 :=
  (((C7_epoch_threshold_amended "1700000000" 1700000000 (by decide) (by decide)
    (by decide)).1 (by norm_num))).trans (by decide)

/-! ## C8 -/

/-- C8 counterexample: the claim says a series whose labels all fail to
parse is sliced as a no-op, never as an empty result — but the Currency
page slicer returns `[]` (not the input) when the anchor `ts` fails to
parse. -/
theorem C8_unparseable_counterexample :
    parseTs (tsOf [("ts", Cell.vstr "garbage")]) = none
    ∧ filteredRows [[("ts", Cell.vstr "garbage")]] "1D" = []
    ∧ ([[("ts", Cell.vstr "garbage")]] : List Row) ≠ [] := by
  decide

/-- C8 (amended): when every label fails to parse as a date, the Macro
slicer `applyRange` returns its input unchanged, while the Currency page
slicer instead returns the empty list; neither raises an error. -/
theorem C8_unparseable_amended (labels : List String) (datasets : List (List JsVal))
    (rows : List Row) (range : String)
    (hl : ∀ s ∈ labels, parseIsoDate s = none)
    (hr : ∀ r ∈ rows, parseTs (tsOf r) = none) :
    applyRange labels datasets range = (labels, datasets)
    ∧ filteredRows rows range = [] := by
  constructor
  · unfold applyRange
    by_cases hALL : range = "ALL"
    · simp [hALL]
    · have hb : applyRangeBoundary labels range = none := by
        unfold applyRangeBoundary
        cases hfind : lastTruthyLabel labels with
        | none => rfl
        | some lbl =>
          have hmem : lbl ∈ labels := by
            have h2 := List.mem_of_find?_eq_some hfind
            exact List.mem_reverse.mp h2
          simp [hl lbl hmem]
      simp [hALL, hb]
  · unfold filteredRows currencyCutoff
    cases hlast : rows.getLast? with
    | none => rfl
    | some lastRow =>
      have h3 : parseTs (tsOf lastRow) = none := hr _ (mem_of_getLast?_eq_some hlast)
      simp [h3]

theorem C8_unparseable_amended_witness :
    applyRange ["x"] [[some (some 1)]] "YTD" = (["x"], [[some (some 1)]])
    ∧ filteredRows [[("ts", Cell.vstr "junk")]] "YTD" = [] :=
  C8_unparseable_amended ["x"] [[some (some 1)]] [[("ts", Cell.vstr "junk")]] "YTD"
    (by decide) (by decide)

/-! ## C9 -/

/-- C9: the time-window slicer preserves the Series invariant — if every
value sequence has the labels' length, then after slicing (with any
token) every output value sequence has the output labels' length: all
parallel sequences are filtered by the same positions. -/
theorem C9_parallel_lengths (labels : List String) (datasets : List (List JsVal))
    (range : String) (h : ∀ ds ∈ datasets, ds.length = labels.length) :
    ∀ ds2 ∈ (applyRange labels datasets range).2,
      ds2.length = (applyRange labels datasets range).1.length := by
  intro ds2 hds2
  unfold applyRange at hds2 ⊢
  by_cases hALL : range = "ALL"
  · simp only [hALL, if_pos] at hds2 ⊢
    exact h ds2 (by simpa using hds2)
  · cases hb : applyRangeBoundary labels range with
    | none =>
      simp only [hALL, hb, if_neg] at hds2 ⊢
      exact h ds2 (by simpa [hALL, hb] using hds2)
    | some startDate =>
      simp only [hALL, hb, if_false] at hds2 ⊢
      obtain ⟨ds, _, rfl⟩ := List.mem_map.mp (by simpa using hds2)
      simp

theorem C9_parallel_lengths_witness :
    (((applyRange ["2023-01-05", "junk", "2023-06-15"]
        [[some (some 1), none, some (some 3)]] "YTD").2.getD 0 []).length
      = (applyRange ["2023-01-05", "junk", "2023-06-15"]
        [[some (some 1), none, some (some 3)]] "YTD").1.length) :=
  C9_parallel_lengths ["2023-01-05", "junk", "2023-06-15"]
    [[some (some 1), none, some (some 3)]] "YTD" (by decide) _ (by decide)


/-! ## C3 -/

/-- C3: for every series and window token, the slice's start boundary is
a function only of the series' own last non-absent label's date and the
token (the embedded slicers take no clock argument at all): the Macro
boundary equals the spec's anchor-and-rule composition, in particular
January 1 of the anchor year for `YTD`; and for rows that all carry a
non-absent `ts` (as the loader guarantees), the Currency cutoff equals
the anchor instant minus 24h/168h/720h for `1D`/`1W`/`1M`. -/
theorem C3_boundary_data_relative (labels : List String) (rows : List Row) (range : String)
    (hts : ∀ r ∈ rows, (tsOf r).truthy = true) (hne : rows ≠ []) :
    applyRangeBoundary labels range
      = (specAnchor labels).bind (fun d => specBoundaryFromAnchor d range)
    ∧ currencyCutoff rows range
      = (specCurrencyAnchor rows).map (fun t => t - specWindowHours range * 3600000) := by
  constructor
  · cases hfind : labels.reverse.find? (fun s => !(s == "")) with
    | none => simp [applyRangeBoundary, specAnchor, lastTruthyLabel, hfind]
    | some lbl =>
      cases hp : parseIsoDate lbl with
      | none => simp [applyRangeBoundary, specAnchor, lastTruthyLabel, hfind, hp]
      | some d =>
        simp only [applyRangeBoundary, specAnchor, lastTruthyLabel, hfind, hp,
          Option.some_bind]
        unfold rangeStartDate specBoundaryFromAnchor
        rfl
  · obtain ⟨lr, hlr⟩ : ∃ lr, rows.getLast? = some lr := by
      cases rows with
      | nil => exact absurd rfl hne
      | cons a t => exact ⟨_, List.getLast?_eq_getLast (a :: t) (by simp)⟩
    have hhead : rows.reverse.head? = some lr := by
      rw [List.head?_reverse, hlr]
    have hfind : rows.reverse.find? (fun r => (tsOf r).truthy) = some lr := by
      cases hrev : rows.reverse with
      | nil => rw [hrev] at hhead; simp at hhead
      | cons a t =>
        rw [hrev] at hhead
        have ha : a = lr := by simpa using hhead
        subst ha
        exact List.find?_cons_of_pos (l := t) (hts a (mem_of_getLast?_eq_some hlr))
    have hhours : cutoffHoursFor range * 3600 * 1000 = specWindowHours range * 3600000 := by
      unfold cutoffHoursFor specWindowHours
      by_cases h1 : range = "1W" <;> by_cases h2 : range = "1M" <;> simp [h1, h2]
    cases hp : parseTs (tsOf lr) with
    | none => simp [currencyCutoff, specCurrencyAnchor, hlr, hfind, hp]
    | some t => simp [currencyCutoff, specCurrencyAnchor, hlr, hfind, hp, hhours]

theorem C3_boundary_data_relative_witness :
    applyRangeBoundary ["2023-01-05", "2023-06-15"] "YTD" = some ⟨2023, 0, 1, 0, 0, 0⟩
    ∧ currencyCutoff [[("ts", Cell.vstr "2023-06-15 12:00:00")]] "1W"
        = some (1686830400000 - 7 * 24 * 3600000) := by
  constructor
  · exact ((C3_boundary_data_relative ["2023-01-05", "2023-06-15"]
      [[("ts", Cell.vstr "2023-06-15 12:00:00")]] "YTD" (by decide) (by decide)).1).trans
      (by decide)
  · exact ((C3_boundary_data_relative ["2023-01-05", "2023-06-15"]
      [[("ts", Cell.vstr "2023-06-15 12:00:00")]] "1W" (by decide) (by decide)).2).trans
      (by decide)

lemma getD_map_of_lt {α β : Type _} (l : List α) (f : α → β) (i : ℕ)
    (h : i < l.length) (d : α) (e : β) :
    (l.map f).getD i e = f (l.getD i d) := by
  rw [List.getD_eq_getElem?_getD, List.getD_eq_getElem?_getD, List.getElem?_map,
    List.getElem?_eq_getElem h]
  simp

lemma getD_range_eq {n i : ℕ} (h : i < n) : (List.range n).getD i 0 = i := by
  rw [List.getD_eq_getElem?_getD, List.getElem?_eq_getElem (by simpa using h)]
  simp

/-! ## C2 -/

/-- C2: aligning the imports series onto the exports (primary) label
axis: the aligned label sequence is exactly the primary one; each
position's secondary value comes from exact label-equality lookup (the
last matching import row, per `Map.set` overwrite), is "no value" when
no import row carries that label, and the positional trade balance
`exportsFOB − importsFOBAdjusted` is "no value" whenever either side is. -/
theorem C2_trade_alignment (exp imp : List Row) :
    tradeDates exp = exp.map dateOf
    ∧ (importsForTrade exp imp).length = (tradeDates exp).length
    ∧ (tradeBalance exp imp).length = (tradeDates exp).length
    ∧ ∀ i, i < exp.length →
        ((∀ r ∈ imp, ¬((dateOf r).truthy = true
              ∧ dateOf r = (tradeDates exp).getD i Cell.vundef))
            → (importsForTrade exp imp).getD i none = none)
        ∧ (∀ r, impByDate imp ((tradeDates exp).getD i Cell.vundef) = some r
            → (importsForTrade exp imp).getD i none = impFOBAdjOf r)
        ∧ (((expFOB exp).getD i none = none ∨ (importsForTrade exp imp).getD i none = none)
            → (tradeBalance exp imp).getD i none = none)
        ∧ (∀ x m, (expFOB exp).getD i none = some x
            → (importsForTrade exp imp).getD i none = some m
            → (tradeBalance exp imp).getD i none = some (jsSub x m)) := by
  have hlen : (tradeDates exp).length = exp.length := by
    simp [tradeDates, expDates]
  refine ⟨rfl, by simp [importsForTrade], by simp [tradeBalance, hlen], ?_⟩
  intro i hi
  have him : (importsForTrade exp imp).getD i none
      = (match impByDate imp ((tradeDates exp).getD i Cell.vundef) with
        | none => none
        | some r => impFOBAdjOf r) :=
    getD_map_of_lt (tradeDates exp) _ i (by omega) Cell.vundef none
  have htb : (tradeBalance exp imp).getD i none
      = (match (expFOB exp).getD i none, (importsForTrade exp imp).getD i none with
        | some x, some m => some (jsSub x m)
        | _, _ => none) := by
    have h1 := getD_map_of_lt (List.range (tradeDates exp).length)
      (fun idx => (match (expFOB exp).getD idx none, (importsForTrade exp imp).getD idx none with
        | some x, some m => some (jsSub x m)
        | _, _ => none)) i (by simpa [hlen] using hi) 0 none
    rw [tradeBalance, h1, getD_range_eq (by omega)]
  refine ⟨?_, ?_, ?_, ?_⟩
  · intro hno
    have hnone : impByDate imp ((tradeDates exp).getD i Cell.vundef) = none := by
      apply List.find?_eq_none.mpr
      intro r hr
      have := hno r (List.mem_reverse.mp hr)
      simp only [Bool.and_eq_true, beq_iff_eq, not_and]
      intro h1
      intro h2
      exact this ⟨h1, h2⟩
    rw [him, hnone]
  · intro r hr
    rw [him, hr]
  · intro hcase
    rcases hcase with hx | hm
    · rw [htb, hx]
    · rw [htb, hm]
      cases (expFOB exp).getD i none <;> rfl
  · intro x m hx hm
    rw [htb, hx, hm]

theorem C2_trade_alignment_witness :
    (importsForTrade expEx impEx).getD 1 none = none
    ∧ (tradeBalance expEx impEx).getD 0 none = some (jsSub (some 10) (some 4)) :=
  ⟨((C2_trade_alignment expEx impEx).2.2.2 1 (by decide)).1 (by decide),
   (((C2_trade_alignment expEx impEx).2.2.2 0 (by decide)).2.2.2) (some 10) (some 4)
     (by decide) (by decide)⟩

lemma filter_range_getD_map_self {α : Type _} (l : List α) (p : α → Bool) (d : α) :
    ((List.range l.length).filter (fun i => p (l.getD i d))).map (fun i => l.getD i d)
      = l.filter p := by
  induction l with
  | nil => rfl
  | cons a t ih =>
    simp only [List.length_cons, List.range_succ_eq_map, List.filter_cons,
      List.getD_cons_zero, List.filter_map, Function.comp_def, List.getD_cons_succ]
    by_cases hpa : p a <;>
      simp [hpa, List.map_map, Function.comp_def, List.getD_cons_succ] <;>
      simpa [List.getD_eq_getElem?_getD] using ih

lemma filter_range_getD_map_zip {α β : Type _} (l : List α) (v : List β)
    (hv : v.length = l.length) (p : α → Bool) (d : α) (e : β) :
    ((List.range l.length).filter (fun i => p (l.getD i d))).map (fun i => v.getD i e)
      = ((l.zip v).filter (fun x => p x.1)).map Prod.snd := by
  induction l generalizing v with
  | nil => rfl
  | cons a t ih =>
    cases v with
    | nil => simp at hv
    | cons b w =>
      have hw : w.length = t.length := by simpa using hv
      simp only [List.length_cons, List.range_succ_eq_map, List.filter_cons,
        List.getD_cons_zero, List.filter_map, Function.comp_def,
        List.getD_cons_succ, List.zip_cons_cons]
      by_cases hpa : p a <;>
        simp [hpa, List.map_map, Function.comp_def, List.getD_cons_succ] <;>
        simpa [List.getD_eq_getElem?_getD] using ih w hw

/-- C10: for the Macro slicer's real tokens (`YTD`/`5Y`/`10Y`, i.e.
whenever a start boundary exists) the output keeps exactly the positions
whose label parses to a date on or after the boundary — positions with
unparseable labels are dropped from the labels and from every value
sequence, even between in-window positions; likewise the Currency slicer
keeps exactly the rows whose `ts` parses on or after the cutoff. -/
theorem C10_unparseable_dropped (labels : List String) (datasets : List (List JsVal))
    (rows : List Row) (range : String) (startDate : JSDate) (cutoff : ℤ)
    (hb : applyRangeBoundary labels range = some startDate)
    (hc : currencyCutoff rows range = some cutoff) :
    (applyRange labels datasets range).1 = labels.filter (keepLabel startDate)
    ∧ (∀ s ∈ (applyRange labels datasets range).1,
        ∃ d, parseIsoDate s = some d ∧ toMillis startDate ≤ toMillis d)
    ∧ ((∀ ds ∈ datasets, ds.length = labels.length) →
        (applyRange labels datasets range).2
          = datasets.map (fun ds =>
              ((labels.zip ds).filter (fun x => keepLabel startDate x.1)).map Prod.snd))
    ∧ filteredRows rows range
        = rows.filter (fun r =>
            match parseTs (tsOf r) with
            | none => false
            | some t => decide (cutoff ≤ t))
    ∧ (∀ r ∈ filteredRows rows range, ∃ t, parseTs (tsOf r) = some t ∧ cutoff ≤ t) := by
  have hALL : range ≠ "ALL" := by
    rintro rfl
    rcases h1 : lastTruthyLabel labels with _ | lbl
    · simp [applyRangeBoundary, h1] at hb
    · rcases h2 : parseIsoDate lbl with _ | dd
      · simp [applyRangeBoundary, h1, h2] at hb
      · simp [applyRangeBoundary, h1, h2, rangeStartDate] at hb
  have happ : applyRange labels datasets range
      = (((List.range labels.length).filter
            (fun i => keepLabel startDate (labels.getD i ""))).map (fun i => labels.getD i ""),
         datasets.map (fun ds =>
           ((List.range labels.length).filter
             (fun i => keepLabel startDate (labels.getD i ""))).map (fun i => ds.getD i none))) := by
    rw [applyRange, if_neg hALL, hb]
  have hfst : (applyRange labels datasets range).1 = labels.filter (keepLabel startDate) := by
    rw [happ]
    exact filter_range_getD_map_self labels (keepLabel startDate) ""
  have hfilt : filteredRows rows range
      = rows.filter (fun r =>
          match parseTs (tsOf r) with
          | none => false
          | some t => decide (cutoff ≤ t)) := by
    simp only [filteredRows, hc]
  refine ⟨hfst, ?_, ?_, hfilt, ?_⟩
  · intro s hs
    rw [hfst] at hs
    have hk : keepLabel startDate s = true := (List.mem_filter.mp hs).2
    rw [keepLabel] at hk
    cases hp : parseIsoDate s with
    | none => rw [hp] at hk; simp at hk
    | some d =>
      rw [hp] at hk
      exact ⟨d, rfl, of_decide_eq_true hk⟩
  · intro hlen
    rw [happ]
    apply List.map_congr_left
    intro ds hds
    exact filter_range_getD_map_zip labels ds (hlen ds hds) (keepLabel startDate) "" none
  · intro r hr
    rw [hfilt] at hr
    have hk := (List.mem_filter.mp hr).2
    cases hp : parseTs (tsOf r) with
    | none => rw [hp] at hk; simp at hk
    | some t =>
      rw [hp] at hk
      exact ⟨t, rfl, of_decide_eq_true hk⟩

theorem C10_unparseable_dropped_witness :
    (applyRange ["2023-01-05", "junk", "2023-06-15"]
        [[some (some 1), some (some 2), some (some 3)]] "YTD").1
      = ["2023-01-05", "2023-06-15"]
    ∧ filteredRows [[("ts", Cell.vstr "2023-06-14 00:00:00")],
        [("ts", Cell.vstr "2023-06-15 12:00:00")]] "YTD"
      = [[("ts", Cell.vstr "2023-06-15 12:00:00")]] := by
  have h := C10_unparseable_dropped ["2023-01-05", "junk", "2023-06-15"]
    [[some (some 1), some (some 2), some (some 3)]]
    [[("ts", Cell.vstr "2023-06-14 00:00:00")], [("ts", Cell.vstr "2023-06-15 12:00:00")]]
    "YTD" ⟨2023, 0, 1, 0, 0, 0⟩ 1686744000000 (by decide) (by decide)
  exact ⟨h.1.trans (by decide), h.2.2.2.1.trans (by decide)⟩

lemma jsLtV_num {x y : ℚ} : jsLtV (some (some x)) (some (some y)) = decide (x < y) := rfl

lemma foldl_minStep_spec : ∀ (t : List (ℕ × JsVal)) (h : ℕ × JsVal),
    (∀ x ∈ h :: t, ∃ q : ℚ, x.2 = some (some q)) →
    t.foldl jsMinStep h ∈ h :: t
    ∧ (∀ x ∈ h :: t, jsLtV x.2 (t.foldl jsMinStep h).2 = false)
    ∧ (h :: t).find? (fun x => x.2 == (t.foldl jsMinStep h).2) = some (t.foldl jsMinStep h) := by
  intro t
  induction t with
  | nil =>
    intro h hsh
    obtain ⟨q, hq⟩ := hsh h (by simp)
    refine ⟨by simp, ?_, ?_⟩
    · intro x hx
      rw [List.mem_singleton] at hx
      subst hx
      simp [List.foldl_nil, hq, jsLtV_num]
    · simp [List.find?]
  | cons b u ih =>
    intro h hsh
    obtain ⟨qh, hqh⟩ := hsh h (by simp)
    obtain ⟨qb, hqb⟩ := hsh b (by simp)
    have hsh' : ∀ x ∈ jsMinStep h b :: u, ∃ q : ℚ, x.2 = some (some q) := by
      intro x hx
      rcases List.mem_cons.mp hx with rfl | hx
      · unfold jsMinStep
        split
        · exact ⟨qb, hqb⟩
        · exact ⟨qh, hqh⟩
      · exact hsh x (by simp [hx])
    obtain ⟨hmem, hmin, hfind⟩ := ih (jsMinStep h b) hsh'
    obtain ⟨qr, hqr⟩ := hsh' _ hmem
    rw [List.foldl_cons]
    by_cases hlt : jsLtV b.2 h.2 = true
    · have hstep : jsMinStep h b = b := by simp [jsMinStep, hlt]
      rw [hstep] at hmem hmin hfind hqr ⊢
      have hblth : qb < qh := by
        rw [hqb, hqh, jsLtV_num] at hlt
        exact of_decide_eq_true hlt
      have hrb : qr ≤ qb := by
        have h5 := hmin b (by simp)
        rw [hqb, hqr, jsLtV_num] at h5
        simpa using h5
      refine ⟨List.mem_cons_of_mem _ hmem, ?_, ?_⟩
      · intro x hx
        rcases List.mem_cons.mp hx with rfl | hx2
        · rw [hqh, hqr, jsLtV_num]
          simp only [decide_eq_false_iff_not, not_lt]
          linarith
        · exact hmin x hx2
      · have hhne : ¬ ((fun x => x.2 == (u.foldl jsMinStep b).2) h = true) := by
          simp only [hqh, hqr, beq_iff_eq, Option.some.injEq]
          intro hcon
          linarith
        have h9 : List.find? (fun x => x.2 == (u.foldl jsMinStep b).2) (h :: b :: u)
            = List.find? (fun x => x.2 == (u.foldl jsMinStep b).2) (b :: u) :=
          List.find?_cons_of_neg _ hhne
        exact h9.trans hfind
    · have hstep : jsMinStep h b = h := by simp [jsMinStep, hlt]
      rw [hstep] at hmem hmin hfind hqr ⊢
      have hhlb : qh ≤ qb := by
        rw [hqb, hqh, jsLtV_num] at hlt
        simpa using hlt
      have hrh : qr ≤ qh := by
        have h5 := hmin h (by simp)
        rw [hqh, hqr, jsLtV_num] at h5
        simpa using h5
      refine ⟨?_, ?_, ?_⟩
      · rcases List.mem_cons.mp hmem with h6 | h6
        · rw [h6]
          exact List.mem_cons_self _ _
        · exact List.mem_cons_of_mem _ (List.mem_cons_of_mem _ h6)
      · intro x hx
        rcases List.mem_cons.mp hx with rfl | hx2
        · exact hmin x (by simp)
        rcases List.mem_cons.mp hx2 with rfl | hx3
        · rw [hqb, hqr, jsLtV_num]
          simp only [decide_eq_false_iff_not, not_lt]
          linarith
        · exact hmin x (by simp [hx3])
      · by_cases hps : (fun x => x.2 == (u.foldl jsMinStep h).2) h = true
        · have h7 := List.find?_cons_of_pos (l := u)
            (p := fun x => x.2 == (u.foldl jsMinStep h).2) hps
          rw [h7] at hfind
          have h8 : h = u.foldl jsMinStep h := Option.some.inj hfind
          have h9 : List.find? (fun x => x.2 == (u.foldl jsMinStep h).2) (h :: b :: u) = some h :=
            List.find?_cons_of_pos _ hps
          exact h9.trans (congrArg some h8)
        · have hqhr : ¬ qh = qr := by
            simpa [hqh, hqr] using hps
          have hbne : ¬ ((fun x => x.2 == (u.foldl jsMinStep h).2) b = true) := by
            simp only [hqb, hqr, beq_iff_eq, Option.some.injEq]
            intro hcon
            exact hqhr (by linarith)
          have h9 : List.find? (fun x => x.2 == (u.foldl jsMinStep h).2) (h :: b :: u)
              = List.find? (fun x => x.2 == (u.foldl jsMinStep h).2) (b :: u) :=
            List.find?_cons_of_neg _ hps
          have h10 : List.find? (fun x => x.2 == (u.foldl jsMinStep h).2) (b :: u)
              = List.find? (fun x => x.2 == (u.foldl jsMinStep h).2) u :=
            List.find?_cons_of_neg _ hbne
          have h11 : List.find? (fun x => x.2 == (u.foldl jsMinStep h).2) (h :: u)
              = List.find? (fun x => x.2 == (u.foldl jsMinStep h).2) u :=
            List.find?_cons_of_neg _ hps
          exact h9.trans (h10.trans (h11.symm.trans hfind))

lemma foldl_maxStep_spec : ∀ (t : List (ℕ × JsVal)) (h : ℕ × JsVal),
    (∀ x ∈ h :: t, ∃ q : ℚ, x.2 = some (some q)) →
    t.foldl jsMaxStep h ∈ h :: t
    ∧ (∀ x ∈ h :: t, jsLtV (t.foldl jsMaxStep h).2 x.2 = false)
    ∧ (h :: t).find? (fun x => x.2 == (t.foldl jsMaxStep h).2) = some (t.foldl jsMaxStep h) := by
  intro t
  induction t with
  | nil =>
    intro h hsh
    obtain ⟨q, hq⟩ := hsh h (by simp)
    refine ⟨by simp, ?_, ?_⟩
    · intro x hx
      rw [List.mem_singleton] at hx
      subst hx
      simp [List.foldl_nil, hq, jsLtV_num]
    · simp [List.find?]
  | cons b u ih =>
    intro h hsh
    obtain ⟨qh, hqh⟩ := hsh h (by simp)
    obtain ⟨qb, hqb⟩ := hsh b (by simp)
    have hsh' : ∀ x ∈ jsMaxStep h b :: u, ∃ q : ℚ, x.2 = some (some q) := by
      intro x hx
      rcases List.mem_cons.mp hx with rfl | hx
      · unfold jsMaxStep
        split
        · exact ⟨qb, hqb⟩
        · exact ⟨qh, hqh⟩
      · exact hsh x (by simp [hx])
    obtain ⟨hmem, hmax, hfind⟩ := ih (jsMaxStep h b) hsh'
    obtain ⟨qr, hqr⟩ := hsh' _ hmem
    rw [List.foldl_cons]
    by_cases hlt : jsLtV h.2 b.2 = true
    · have hstep : jsMaxStep h b = b := by simp [jsMaxStep, hlt]
      rw [hstep] at hmem hmax hfind hqr ⊢
      have hhltb : qh < qb := by
        rw [hqh, hqb, jsLtV_num] at hlt
        exact of_decide_eq_true hlt
      have hbr : qb ≤ qr := by
        have h5 := hmax b (by simp)
        rw [hqb, hqr, jsLtV_num] at h5
        simpa using h5
      refine ⟨List.mem_cons_of_mem _ hmem, ?_, ?_⟩
      · intro x hx
        rcases List.mem_cons.mp hx with rfl | hx2
        · rw [hqh, hqr, jsLtV_num]
          simp only [decide_eq_false_iff_not, not_lt]
          linarith
        · exact hmax x hx2
      · have hhne : ¬ ((fun x => x.2 == (u.foldl jsMaxStep b).2) h = true) := by
          simp only [hqh, hqr, beq_iff_eq, Option.some.injEq]
          intro hcon
          linarith
        have h9 : List.find? (fun x => x.2 == (u.foldl jsMaxStep b).2) (h :: b :: u)
            = List.find? (fun x => x.2 == (u.foldl jsMaxStep b).2) (b :: u) :=
          List.find?_cons_of_neg _ hhne
        exact h9.trans hfind
    · have hstep : jsMaxStep h b = h := by simp [jsMaxStep, hlt]
      rw [hstep] at hmem hmax hfind hqr ⊢
      have hble : qb ≤ qh := by
        rw [hqh, hqb, jsLtV_num] at hlt
        simpa using hlt
      have hhr : qh ≤ qr := by
        have h5 := hmax h (by simp)
        rw [hqr, hqh, jsLtV_num] at h5
        simpa using h5
      refine ⟨?_, ?_, ?_⟩
      · rcases List.mem_cons.mp hmem with h6 | h6
        · rw [h6]
          exact List.mem_cons_self _ _
        · exact List.mem_cons_of_mem _ (List.mem_cons_of_mem _ h6)
      · intro x hx
        rcases List.mem_cons.mp hx with rfl | hx2
        · exact hmax x (by simp)
        rcases List.mem_cons.mp hx2 with rfl | hx3
        · rw [hqr, hqb, jsLtV_num]
          simp only [decide_eq_false_iff_not, not_lt]
          linarith
        · exact hmax x (by simp [hx3])
      · by_cases hps : (fun x => x.2 == (u.foldl jsMaxStep h).2) h = true
        · have h7 := List.find?_cons_of_pos (l := u)
            (p := fun x => x.2 == (u.foldl jsMaxStep h).2) hps
          rw [h7] at hfind
          have h8 : h = u.foldl jsMaxStep h := Option.some.inj hfind
          have h9 : List.find? (fun x => x.2 == (u.foldl jsMaxStep h).2) (h :: b :: u) = some h :=
            List.find?_cons_of_pos _ hps
          exact h9.trans (congrArg some h8)
        · have hqhr : ¬ qh = qr := by
            simpa [hqh, hqr] using hps
          have hbne : ¬ ((fun x => x.2 == (u.foldl jsMaxStep h).2) b = true) := by
            simp only [hqb, hqr, beq_iff_eq, Option.some.injEq]
            intro hcon
            exact hqhr (by linarith)
          have h9 : List.find? (fun x => x.2 == (u.foldl jsMaxStep h).2) (h :: b :: u)
              = List.find? (fun x => x.2 == (u.foldl jsMaxStep h).2) (b :: u) :=
            List.find?_cons_of_neg _ hps
          have h10 : List.find? (fun x => x.2 == (u.foldl jsMaxStep h).2) (b :: u)
              = List.find? (fun x => x.2 == (u.foldl jsMaxStep h).2) u :=
            List.find?_cons_of_neg _ hbne
          have h11 : List.find? (fun x => x.2 == (u.foldl jsMaxStep h).2) (h :: u)
              = List.find? (fun x => x.2 == (u.foldl jsMaxStep h).2) u :=
            List.find?_cons_of_neg _ hps
          exact h9.trans (h10.trans (h11.symm.trans hfind))

lemma snd_mem_of_mem_enumFrom {α : Type _} :
    ∀ {l : List α} {n : ℕ} {p : ℕ × α}, p ∈ List.enumFrom n l → p.2 ∈ l := by
  intro l
  induction l with
  | nil => intro n p h; simp at h
  | cons a t ih =>
    intro n p h
    rw [List.enumFrom_cons] at h
    rcases List.mem_cons.mp h with rfl | h
    · simp
    · exact List.mem_cons_of_mem _ (ih h)

lemma snd_mem_of_mem_enum {α : Type _} {l : List α} {p : ℕ × α}
    (h : p ∈ l.enum) : p.2 ∈ l :=
  snd_mem_of_mem_enumFrom h

lemma minPair_eq (w : List JsVal) :
    minPair w = match validPairs w with
      | [] => none
      | h :: t => some (t.foldl jsMinStep h) := rfl

lemma maxPair_eq (w : List JsVal) :
    maxPair w = match validPairs w with
      | [] => none
      | h :: t => some (t.foldl jsMaxStep h) := rfl

/-- C4 (amended): over a window free of NaN entries, the annotator's
minimum and maximum range over the defined entries only, ties are broken
by first occurrence (the reported pair is the `find?`-first pair carrying
the extremal value), a window with no defined entry yields no minimum, no
maximum and no last value — and the reported "last" is the value at the
window's final position when that position is defined, absent otherwise
(it does not fall back to an earlier defined value). -/
theorem C4_annotator_amended (w : List JsVal) (hnan : ∀ v ∈ w, v ≠ some none) :
    (∀ p, minPair w = some p → p ∈ validPairs w
        ∧ (∀ x ∈ validPairs w, jsLtV x.2 p.2 = false)
        ∧ (validPairs w).find? (fun x => x.2 == p.2) = some p)
    ∧ (∀ p, maxPair w = some p → p ∈ validPairs w
        ∧ (∀ x ∈ validPairs w, jsLtV p.2 x.2 = false)
        ∧ (validPairs w).find? (fun x => x.2 == p.2) = some p)
    ∧ ((∀ v ∈ w, v = none) → minPair w = none ∧ maxPair w = none ∧ lastMidOf w = none)
    ∧ (∀ v, w.getLast? = some v → lastMidOf w = v) := by
  have hshape : ∀ x ∈ validPairs w, ∃ q : ℚ, x.2 = some (some q) := by
    intro x hx
    have h1 := List.mem_filter.mp hx
    have hmem : x.2 ∈ w := snd_mem_of_mem_enum h1.1
    have hne : ¬ x.2 = none := by simpa using h1.2
    have hnn := hnan x.2 hmem
    cases hv2 : x.2 with
    | none => exact absurd hv2 hne
    | some y =>
      cases y with
      | none => exact absurd hv2 hnn
      | some q => exact ⟨q, rfl⟩
  refine ⟨?_, ?_, ?_, ?_⟩
  · intro p hp
    cases hvp : validPairs w with
    | nil => rw [minPair_eq, hvp] at hp; simp at hp
    | cons h t =>
      rw [minPair_eq, hvp] at hp
      have hp2 : t.foldl jsMinStep h = p := Option.some.inj hp
      obtain ⟨hmem, hmin, hfind⟩ := foldl_minStep_spec t h (hvp ▸ hshape)
      subst hp2
      exact ⟨hmem, hmin, hfind⟩
  · intro p hp
    cases hvp : validPairs w with
    | nil => rw [maxPair_eq, hvp] at hp; simp at hp
    | cons h t =>
      rw [maxPair_eq, hvp] at hp
      have hp2 : t.foldl jsMaxStep h = p := Option.some.inj hp
      obtain ⟨hmem, hmax, hfind⟩ := foldl_maxStep_spec t h (hvp ▸ hshape)
      subst hp2
      exact ⟨hmem, hmax, hfind⟩
  · intro hall
    have hvp : validPairs w = [] := by
      unfold validPairs
      rw [List.filter_eq_nil_iff]
      intro x hx
      have hx2 : x.2 ∈ w := snd_mem_of_mem_enum hx
      simp [hall x.2 hx2]
    refine ⟨by rw [minPair_eq, hvp], by rw [maxPair_eq, hvp], ?_⟩
    cases hl : w.getLast? with
    | none => simp [lastMidOf, hl]
    | some v =>
      have hv : v = none := hall v (mem_of_getLast?_eq_some hl)
      simp [lastMidOf, hl, hv]
  · intro v hv
    simp [lastMidOf, hv]

/-- C4 counterexample: the claim says the annotator reports as "last" the
last *defined* value, never letting a trailing absent entry suppress it —
but on mids `[3, null]` the code's `lastMid` (the value at the final
position) is null and no last annotation is produced, while the spec's
last defined value is `3`. -/
theorem C4_last_counterexample :
    computedMids [[("best_bid", Cell.vnum 3), ("best_ask", Cell.vnum 3)],
        [("best_bid", Cell.vnum 3)]] = [some (some 3), none]
    ∧ lastMidOf (computedMids [[("best_bid", Cell.vnum 3), ("best_ask", Cell.vnum 3)],
        [("best_bid", Cell.vnum 3)]]) = none
    ∧ specLastDefined (sparkSliceOf (computedMids
        [[("best_bid", Cell.vnum 3), ("best_ask", Cell.vnum 3)],
         [("best_bid", Cell.vnum 3)]])) = some (some 3)
    ∧ lastMidOf (computedMids [[("best_bid", Cell.vnum 3), ("best_ask", Cell.vnum 3)],
        [("best_bid", Cell.vnum 3)]])
      ≠ specLastDefined (sparkSliceOf (computedMids
        [[("best_bid", Cell.vnum 3), ("best_ask", Cell.vnum 3)],
         [("best_bid", Cell.vnum 3)]])) := by
  have h1 : computedMids [[("best_bid", Cell.vnum 3), ("best_ask", Cell.vnum 3)],
      [("best_bid", Cell.vnum 3)]] = [some (some 3), none] := by
    with_unfolding_all rfl
  have h2 : lastMidOf (computedMids [[("best_bid", Cell.vnum 3), ("best_ask", Cell.vnum 3)],
      [("best_bid", Cell.vnum 3)]]) = none := by
    rw [h1]
    decide
  have h3 : specLastDefined (sparkSliceOf (computedMids
      [[("best_bid", Cell.vnum 3), ("best_ask", Cell.vnum 3)],
       [("best_bid", Cell.vnum 3)]])) = some (some 3) := by
    rw [h1]
    decide
  refine ⟨h1, h2, h3, ?_⟩
  rw [h2, h3]
  simp

theorem C4_annotator_amended_witness :
    ((3, some (some (1 : ℚ))) ∈ validPairs [none, some (some 3), none, some (some 1), some (some 5)]
      ∧ (∀ x ∈ validPairs [none, some (some 3), none, some (some 1), some (some 5)],
          jsLtV x.2 (3, some (some (1 : ℚ))).2 = false)
      ∧ (validPairs [none, some (some 3), none, some (some 1), some (some 5)]).find?
          (fun x => x.2 == (3, some (some (1 : ℚ))).2) = some (3, some (some 1)))
    ∧ ((4, some (some (5 : ℚ))) ∈ validPairs [none, some (some 3), none, some (some 1), some (some 5)]
      ∧ (∀ x ∈ validPairs [none, some (some 3), none, some (some 1), some (some 5)],
          jsLtV (4, some (some (5 : ℚ))).2 x.2 = false)
      ∧ (validPairs [none, some (some 3), none, some (some 1), some (some 5)]).find?
          (fun x => x.2 == (4, some (some (5 : ℚ))).2) = some (4, some (some 5))) :=
  ⟨(C4_annotator_amended [none, some (some 3), none, some (some 1), some (some 5)]
      (by decide)).1 (3, some (some 1)) (by decide),
   (C4_annotator_amended [none, some (some 3), none, some (some 1), some (some 5)]
      (by decide)).2.1 (4, some (some 5)) (by decide)⟩
